import Mathlib

/-!
Verification of the gombare identification-key core (`src/core/params.go`).

This file is a shallow embedding of the key-building core of the gombare
repository.  Go `map[string]interface{}` document nodes become association
lists of `Value`s; Go `float64` numbers are modelled as exact rationals
(every finite float64 is a rational); Go panics become `Except KeyErr`
errors; the in-place mutation of
the per-container increment counter is made explicit by threading the
(possibly updated) container and current objects through every call.

The schema type `IdentificationParameter` keeps the source's field names.
The diagnostic-only fields `parent` and `fullPath` (used only inside panic
messages) are not modelled; the mutable `conditional` flag set by `Resolve`
is an explicit field, and `doResolve` is the pure transformation that sets
it everywhere.
-/

set_option maxHeartbeats 1600000

/-- The error taxonomy corresponding to the panics in `params.go`:
`emptyKey` for the two "did not allow us to build a non-empty ID key" panics,
`unsupported` for the two "Cannot handle the OBJECT/VALUE" panics, and
`badCounter` for the failing `.(map[string]int)` type assertion in `incrKey`. -/
inductive KeyErr where
  | emptyKey
  | unsupported
  | badCounter
deriving Repr, DecidableEq

/-- A decoded document value, mirroring the `interface{}` shapes that
`params.go` distinguishes in its type switches: `float64`, `string`, `bool`,
nil (a present-but-null entry), `map[string]interface{}`,
`[]map[string]interface{}` and the counter maps `map[string]int` written by
`incrKey`.  Any Go value of another dynamic type lands in the `default`
branches of the source's switches and panics; those shapes are not
representable here except for `counters`, which also lands in the default
branches when read as data. -/
inductive Value where
  | num (q : ℚ)
  | str (s : String)
  | boolean (b : Bool)
  | null
  | obj (entries : List (String × Value))
  | arr (items : List (List (String × Value)))
  | counters (m : List (String × Int))
deriving Repr

/-- A document object: the model of Go's `map[string]interface{}`. -/
abbrev Obj := List (String × Value)

/-- Go map read `obj[key]` (first binding wins; a Go map has no duplicate
keys, and all writes below replace the first binding). -/
def lookupObj : Obj → String → Option Value
  | [], _ => none
  | (k, v) :: rest, key => if k = key then some v else lookupObj rest key

/-- Go map write `obj[key] = v`. -/
def setEntry : Obj → String → Value → Obj
  | [], key, v => [(key, v)]
  | (k, w) :: rest, key, v =>
      if k = key then (key, v) :: rest else (k, w) :: setEntry rest key v

/-- Go read `m[key]` on a `map[string]int`: a missing key reads as `0`. -/
def lookupCount : List (String × Int) → String → Int
  | [], _ => 0
  | (k, n) :: rest, key => if k = key then n else lookupCount rest key

/-- Go write `m[key] = n` on a `map[string]int`. -/
def setCount : List (String × Int) → String → Int → List (String × Int)
  | [], key, n => [(key, n)]
  | (k, m) :: rest, key, n =>
      if k = key then (key, n) :: rest else (k, m) :: setCount rest key n

theorem list_sizeOf_pos {α : Type _} [SizeOf α] (l : List α) : 0 < sizeOf l := by
  cases l <;> simp_arith

theorem sizeOf_lookupObj {obj : Obj} {key : String} {v : Value}
    (h : lookupObj obj key = some v) : sizeOf v < sizeOf obj := by
  induction obj with
  | nil => simp [lookupObj] at h
  | cons hd tl ih =>
      obtain ⟨k, w⟩ := hd
      simp only [lookupObj] at h
      split at h
      · cases h
        simp
        omega
      · have := ih h
        simp
        omega

mutual
/-- The schema node from `params.go`, with the source's field names (`Prop`
is a Lean keyword, hence `Prop_`).  `conditional` is the technical flag set
by `Resolve`; `parent`/`fullPath` are diagnostic-only and not modelled. -/
inductive IdentificationParameter where
  | mk (At : String) (Use : List String) (Incr : Bool)
       (When : List ConditionalIDParameter)
       (Look : List IdentificationParameter)
       (For : List (String × IdentificationParameter))
       (Name : String)
       (conditional : Bool)

/-- Model of `ConditionalIDParameter`: an embedded `IdentificationParameter` plus the
gate fields `Prop` (modelled as `Prop_`) and `Is`. -/
inductive ConditionalIDParameter where
  | mk (Prop_ : String) (Is : String) (toIdParam : IdentificationParameter)
end

def IdentificationParameter.At : IdentificationParameter → String
  | .mk a _ _ _ _ _ _ _ => a

def IdentificationParameter.Use : IdentificationParameter → List String
  | .mk _ u _ _ _ _ _ _ => u

def IdentificationParameter.Incr : IdentificationParameter → Bool
  | .mk _ _ i _ _ _ _ _ => i

def IdentificationParameter.When :
    IdentificationParameter → List ConditionalIDParameter
  | .mk _ _ _ w _ _ _ _ => w

def IdentificationParameter.Look :
    IdentificationParameter → List IdentificationParameter
  | .mk _ _ _ _ l _ _ _ => l

def IdentificationParameter.For :
    IdentificationParameter → List (String × IdentificationParameter)
  | .mk _ _ _ _ _ f _ _ => f

def IdentificationParameter.Name : IdentificationParameter → String
  | .mk _ _ _ _ _ _ n _ => n

def IdentificationParameter.conditional : IdentificationParameter → Bool
  | .mk _ _ _ _ _ _ _ c => c

def ConditionalIDParameter.Prop_ : ConditionalIDParameter → String
  | .mk p _ _ => p

def ConditionalIDParameter.Is : ConditionalIDParameter → String
  | .mk _ i _ => i

def ConditionalIDParameter.toIdParam :
    ConditionalIDParameter → IdentificationParameter
  | .mk _ _ ip => ip

theorem sizeOf_When_lt (p : IdentificationParameter) :
    sizeOf p.When < sizeOf p := by
  cases p <;> simp [IdentificationParameter.When] <;> omega

theorem sizeOf_Look_lt (p : IdentificationParameter) :
    sizeOf p.Look < sizeOf p := by
  cases p <;> simp [IdentificationParameter.Look] <;> omega

theorem sizeOf_toIdParam_lt (c : ConditionalIDParameter) :
    sizeOf c.toIdParam < sizeOf c := by
  cases c <;> simp [ConditionalIDParameter.toIdParam] <;> omega

mutual
/-- Model of `doResolve` from `params.go`, as a pure transformation: stores the
`conditional` flag on the node, defaults the `At` of each `For` child to its
map key and of each `When` child to this node's `At`, recurses over `For`
and `Look` with the same flag and over `When` forcing the flag true.
`checkValidity` is a no-op in the source and `doResolve` therefore never
returns an error; the parent back-references are diagnostic-only and
dropped.  The `atDefault` argument carries the `At` default a parent
installs on this node before recursing (Go mutates the child first). -/
def doResolve (conditional : Bool) (atDefault : Option String) :
    IdentificationParameter → IdentificationParameter
  | .mk at0 use incr whens looks fors name _ =>
      let newAt := if at0 = "" then atDefault.getD at0 else at0
      .mk newAt use incr
        (resolveWhens newAt whens)
        (resolveLooks conditional looks)
        (resolveFors conditional fors)
        name conditional

/-- The `When` loop of `doResolve`: each condition's `At` defaults to the
parent's `At`, and the subtree is resolved with `conditional = true`. -/
def resolveWhens (parentAt : String) :
    List ConditionalIDParameter → List ConditionalIDParameter
  | [] => []
  | .mk p i sub :: rest =>
      .mk p i (doResolve true (some parentAt) sub) :: resolveWhens parentAt rest

/-- The `Look` loop of `doResolve`: recurse with the same flag, no `At`
default. -/
def resolveLooks (conditional : Bool) :
    List IdentificationParameter → List IdentificationParameter
  | [] => []
  | sub :: rest => doResolve conditional none sub :: resolveLooks conditional rest

/-- The `For` loop of `doResolve`: each child's `At` defaults to its map
key, same flag.  (Go iterates the map in unspecified order; the per-entry
effects are independent, so a list traversal is equivalent.) -/
def resolveFors (conditional : Bool) :
    List (String × IdentificationParameter) → List (String × IdentificationParameter)
  | [] => []
  | (path, sub) :: rest =>
      (path, doResolve conditional (some path) sub) :: resolveFors conditional rest
end

/-- Model of `Resolve` from `params.go` (always succeeds: `checkValidity` is a no-op). -/
def Resolve (p : IdentificationParameter) : IdentificationParameter :=
  doResolve false none p

--------------------------------------------------------------------------------
-- Utils: separators, graceful concatenation, value extraction
--------------------------------------------------------------------------------

/-- Constant `sepPLUS` from `params.go`. -/
def sepPLUS : String := "+"

/-- Constant `sepPIPE` from `params.go`. -/
def sepPIPE : String := "|"

/-- Constant `currentPATH` from `params.go`. -/
def currentPATH : String := "."

/-- Constant `objINCREMENTS` from `params.go`. -/
def objINCREMENTS : String := "_increments_"

/-- Model of `concatSeparatedString` from `params.go`: gracefully concatenate two
strings, treating an empty side as the identity. -/
def concatSeparatedString (val1 sep val2 : String) : String :=
  if val1 = "" then val2
  else if val2 = "" then val1
  else val1 ++ sep ++ val2

/-- Rounding to the nearest integer with ties to even, as performed (on the
exact value) by Go's `strconv.FormatFloat(f, 'f', 6, 64)`. -/
def roundHalfToEven (q : ℚ) : ℤ :=
  let f := Int.floor q
  if q - f < 1 / 2 then f
  else if 1 / 2 < q - f then f + 1
  else if Even f then f else f + 1

/-- Left-pad a digit string with zeros to width `w`. -/
def zeroPad (w : Nat) (s : String) : String :=
  if s.length < w then String.mk (List.replicate (w - s.length) '0') ++ s else s

/-- Model of `strconv.FormatFloat(floatValue, 'f', 6, 64)` on the exact (rational)
value of the float: sign, integer part, and exactly six rounded decimals. -/
def formatFloat6 (q : ℚ) : String :=
  let sign := if q < 0 then "-" else ""
  let n := (roundHalfToEven (|q| * 1000000)).toNat
  sign ++ toString (n / 1000000) ++ "." ++ zeroPad 6 (toString (n % 1000000))

mutual
/-- Model of `getStringValueFromObj` from `params.go`.  The source's numeric
test `floatValue == float64(int(floatValue))` goes through Go's `int`
(64-bit) conversion, so it holds exactly when the value is an integer in
the int64 range: an in-range integer round-trips (so a reduced denominator
of 1 with `-2^63 ≤ num < 2^63`), while for an out-of-range value the
implementation-specific `int(floatValue)` has a float64 image inside
`[-2^63, 2^63]` and can never equal it, except at exactly `2^63`, where the
outcome is platform-specific (amd64 yields `-2^63`, making the test false;
the model follows amd64 and takes the 6-decimal path there).  When the test
holds, `strconv.Itoa(int(floatValue))` prints that integer.  The receiver
is only used in the panic message and is dropped. -/
def getStringValueFromObj (obj : Obj) (prop : String) : Except KeyErr String :=
  stringOfLookedUp (lookupObj obj prop) prop
termination_by sizeOf obj * 2 + 1
decreasing_by
  rcases h : lookupObj obj prop with _ | v
  · have := list_sizeOf_pos obj
    simp
    omega
  · have := sizeOf_lookupObj h
    simp
    omega

/-- The type switch of `getStringValueFromObj` on `value, ok := obj[prop]`:
`none` is a missing property, `some .null` a present-but-nil one. -/
def stringOfLookedUp : Option Value → String → Except KeyErr String
  | some (.num q), _ =>
      if q.den = 1 ∧ -(2 ^ 63) ≤ q.num ∧ q.num < 2 ^ 63 then .ok (toString q.num)
      else .ok (formatFloat6 q)
  | some (.str s), _ => .ok s
  | some (.boolean b), _ => .ok (if b then "true" else "false")
  | some (.obj m), _ => getStringValueFromObj m "#text"
  | some .null, prop => .ok prop
  | none, prop => .ok ("(" ++ prop ++ ")")
  | some (.arr _), _ => .error .unsupported
  | some (.counters _), _ => .error .unsupported
termination_by ov _ => sizeOf ov * 2
decreasing_by
  simp
  omega
end

/-- Model of the `%v` rendering of a float64, on the exact rational value.  Go
prints the shortest decimal that round-trips; for a value with a finite
decimal expansion that is the expansion with trailing zeros stripped, which
is what this models (no scientific notation, and non-decimal rationals -
unreachable through the claims below - fall back to a fraction rendering). -/
def goFloatV (q : ℚ) : String :=
  if q.den = 1 then toString q.num
  else
    match (List.range 40).find? (fun k => (q * (10 : ℚ) ^ k).den == 1) with
    | some k =>
        let n := (q * (10 : ℚ) ^ k).num
        let sign := if q < 0 then "-" else ""
        sign ++ toString (n.natAbs / 10 ^ k) ++ "." ++
          zeroPad k (toString (n.natAbs % 10 ^ k))
    | none => toString q.num ++ "/" ++ toString q.den

/-- Insert a `(key, rendered)` pair into a key-sorted list (fmt prints map
keys in sorted order). -/
def insertPair (p : String × String) :
    List (String × String) → List (String × String)
  | [] => [p]
  | q :: rest => if p.1 ≤ q.1 then p :: q :: rest else q :: insertPair p rest

/-- Insertion sort of `(key, rendered)` pairs by key. -/
def sortPairs : List (String × String) → List (String × String)
  | [] => []
  | p :: rest => insertPair p (sortPairs rest)

mutual
/-- Model of `fmt.Sprintf("%v", value)` on a document value: nil prints `<nil>`,
strings verbatim, booleans `true`/`false`, maps as `map[k1:v1 k2:v2]` with
sorted keys, slices space-separated in brackets.  (Only the `<nil>`, string
and boolean branches are relied on by the theorems below.) -/
def goSprintValue : Value → String
  | .null => "<nil>"
  | .str s => s
  | .boolean b => if b then "true" else "false"
  | .num q => goFloatV q
  | .obj entries =>
      "map[" ++ String.intercalate " "
        ((sortPairs (goSprintEntries entries)).map (fun p => p.1 ++ ":" ++ p.2))
        ++ "]"
  | .arr items => "[" ++ String.intercalate " " (goSprintItems items) ++ "]"
  | .counters m =>
      "map[" ++ String.intercalate " "
        ((sortPairs (m.map (fun p => (p.1, toString p.2)))).map
          (fun p => p.1 ++ ":" ++ p.2))
        ++ "]"
termination_by v => sizeOf v

/-- Render (with `%v`) every entry of an object (before key-sorting). -/
def goSprintEntries : List (String × Value) → List (String × String)
  | [] => []
  | (k, v) :: rest => (k, goSprintValue v) :: goSprintEntries rest
termination_by l => sizeOf l

/-- Render (with `%v`) every object of a slice. -/
def goSprintItems : List Obj → List String
  | [] => []
  | o :: rest => goSprintValue (.obj o) :: goSprintItems rest
termination_by l => sizeOf l
decreasing_by
  all_goals have h0 := list_sizeOf_pos rest
  all_goals simp
  all_goals omega
end

/-- Model of `fmt.Sprintf("%v", obj[prop])`: a missing key reads as an untyped nil
interface, printed `<nil>`. -/
def goSprintV : Option Value → String
  | none => "<nil>"
  | some v => goSprintValue v

/-- Model of `isVerifiedBy` from `params.go`: the loosely-stringified value of
`obj[Prop]` must equal `Is`.  (The source's `obj == nil` guard has no
counterpart here: a nil Go map and the empty map read identically, and a
key-building call never passes a nil current object in the model.) -/
def isVerifiedBy (c : ConditionalIDParameter) (obj : Obj) : Bool :=
  goSprintV (lookupObj obj c.Prop_) == c.Is

/-- The "init if needed" step of `incrKey` from `params.go`: install an
empty counter map under `_increments_` when the entry is missing or nil. -/
def incrInit (obj : Obj) : Obj :=
  match lookupObj obj objINCREMENTS with
  | none => setEntry obj objINCREMENTS (.counters [])
  | some .null => setEntry obj objINCREMENTS (.counters [])
  | some _ => obj

/-- Model of `incrKey` from `params.go`: initialize the container's `_increments_`
counter map if the entry is missing or nil (`incrInit`), bump the count for
`key`, and return `"<key>#<count>"` together with the updated container.  A
pre-existing `_increments_` entry that is not a counter map makes the
source's `.(map[string]int)` assertion panic (`badCounter`). -/
def incrKey (obj : Obj) (key : String) : Except KeyErr (String × Obj) :=
  match lookupObj (incrInit obj) objINCREMENTS with
  | some (.counters m) =>
      let newCount := lookupCount m key + 1
      .ok (key ++ "#" ++ toString newCount,
           setEntry (incrInit obj) objINCREMENTS (.counters (setCount m key newCount)))
  | _ => .error .badCounter

/-- The `End:` label of `doBuildUniqueKey`: if `Incr` is set, pass the key
through the container's increment counter. -/
def finishKey (p : IdentificationParameter) (orig obj : Obj) (result : String) :
    Except KeyErr (String × Obj × Obj) :=
  if p.Incr then
    match incrKey orig result with
    | .error e => .error e
    | .ok (r, orig1) => .ok (r, orig1, obj)
  else .ok (result, orig, obj)

--------------------------------------------------------------------------------
-- KeyBuilder: doBuildUniqueKey
--------------------------------------------------------------------------------

/-- The `use` loop of `doBuildUniqueKey`: extract each named property and
concatenate onto the accumulated result with `+`. -/
def buildUseKey (obj : Obj) : List String → String → Except KeyErr String
  | [], result => .ok result
  | prop :: rest, result =>
      match getStringValueFromObj obj prop with
      | .error e => .error e
      | .ok v => buildUseKey obj rest (concatSeparatedString result sepPLUS v)

mutual
/-- Model of `doBuildUniqueKey` from `params.go`.  The Go function mutates the
document in place (only through `incrKey` on its first argument); here the
updated container and current objects are returned alongside the key.  The
three sections of the source map to: `tryWhen` (the `when` loop, whose first
verified condition jumps to `End`), `buildUseKey` guarded by the
non-conditional empty-key panic, and `doLook` with the same guard;
`finishKey` is the `End:` label handling `Incr`. -/
def doBuildUniqueKey (p : IdentificationParameter) (orig obj : Obj) :
    Except KeyErr (String × Obj × Obj) :=
  match tryWhen p.When orig obj with
  | some (.error e) => .error e
  | some (.ok (r, orig1, obj1)) => finishKey p orig1 obj1 r
  | none =>
      if p.Use.isEmpty then
        match doLook p.Look orig obj "" with
        | .error e => .error e
        | .ok (r, orig1, obj1) =>
            if !p.conditional && r == "" then .error .emptyKey
            else finishKey p orig1 obj1 r
      else
        match buildUseKey obj p.Use "" with
        | .error e => .error e
        | .ok r =>
            if !p.conditional && r == "" then .error .emptyKey
            else finishKey p orig obj r
termination_by (sizeOf p, 0)
decreasing_by
  all_goals apply Prod.Lex.left
  all_goals first
    | exact sizeOf_When_lt p
    | exact sizeOf_Look_lt p

/-- The `when` loop of `doBuildUniqueKey`: the first condition verified by
the current object wins; its branch key is built recursively and prefixed
with the branch's `Name` via `+`.  `none` means no condition matched (also
when the list is empty), and the `use`/`look` rules apply instead. -/
def tryWhen (whens : List ConditionalIDParameter) (orig obj : Obj) :
    Option (Except KeyErr (String × Obj × Obj)) :=
  match whens with
  | [] => none
  | condition :: rest =>
      if isVerifiedBy condition obj then
        some (match doBuildUniqueKey condition.toIdParam orig obj with
              | .error e => .error e
              | .ok (sub, orig1, obj1) =>
                  .ok (concatSeparatedString condition.toIdParam.Name sepPLUS sub,
                       orig1, obj1))
      else tryWhen rest orig obj
termination_by (sizeOf whens, 0)
decreasing_by
  all_goals apply Prod.Lex.left
  all_goals have h1 := sizeOf_toIdParam_lt condition
  all_goals simp
  all_goals omega

/-- The `look` loop of `doBuildUniqueKey`.  A child at path `"."` recurses on
the same `(orig, obj)` pair; otherwise the child descends into
`obj[child.At]`: a nested object advances the container to `obj`, an array
of objects is aggregated element-wise by `doLookArray` and joined with `|`,
a present-but-nil value contributes `"<at>empty ??"`, a missing one
`"(<at>)"`, and any other shape panics.  The updated nested value is written
back into the current object, mirroring Go's in-place mutation of the shared
maps. -/
def doLook (looks : List IdentificationParameter) (orig obj : Obj)
    (result : String) : Except KeyErr (String × Obj × Obj) :=
  match looks with
  | [] => .ok (result, orig, obj)
  | nextIdParam :: rest =>
      if nextIdParam.At = currentPATH then
        match doBuildUniqueKey nextIdParam orig obj with
        | .error e => .error e
        | .ok (k, orig1, obj1) =>
            doLook rest orig1 obj1 (concatSeparatedString result sepPLUS k)
      else
        match lookupObj obj nextIdParam.At with
        | some (.obj target) =>
            match doBuildUniqueKey nextIdParam obj target with
            | .error e => .error e
            | .ok (k, obj1, target1) =>
                doLook rest orig (setEntry obj1 nextIdParam.At (.obj target1))
                  (concatSeparatedString result sepPLUS k)
        | some (.arr targetItems) =>
            match doLookArray nextIdParam targetItems obj with
            | .error e => .error e
            | .ok (values, obj1, items1) =>
                doLook rest orig (setEntry obj1 nextIdParam.At (.arr items1))
                  (concatSeparatedString result sepPLUS
                    (String.intercalate sepPIPE values))
        | some .null =>
            doLook rest orig obj
              (concatSeparatedString result sepPLUS
                (nextIdParam.At ++ "empty ??"))
        | none =>
            doLook rest orig obj
              (concatSeparatedString result sepPLUS
                ("(" ++ nextIdParam.At ++ ")"))
        | some _ => .error .unsupported
termination_by (sizeOf looks, 0)
decreasing_by
  all_goals apply Prod.Lex.left
  all_goals simp
  all_goals omega

/-- The array case of the `look` loop: build a key for every element of the
array with the (counter-threaded) current object as container, collecting
each key unless it is empty and the child is conditional; the element order
is the document order. -/
def doLookArray (nextIdParam : IdentificationParameter) (items : List Obj)
    (store : Obj) : Except KeyErr (List String × Obj × List Obj) :=
  match items with
  | [] => .ok ([], store, [])
  | targetItem :: rest =>
      match doBuildUniqueKey nextIdParam store targetItem with
      | .error e => .error e
      | .ok (key, store1, item1) =>
          match doLookArray nextIdParam rest store1 with
          | .error e => .error e
          | .ok (values, store2, rest1) =>
              .ok ((if key != "" || !nextIdParam.conditional
                    then key :: values else values),
                   store2, item1 :: rest1)
termination_by (sizeOf nextIdParam, 1 + sizeOf items)
decreasing_by
  all_goals apply Prod.Lex.right
  all_goals simp
  all_goals omega
end

/-- Model of `BuildUniqueKey` from `params.go`: the public entry point, a direct
delegation to `doBuildUniqueKey`. -/
def BuildUniqueKey (p : IdentificationParameter) (orig obj : Obj) :
    Except KeyErr (String × Obj × Obj) :=
  doBuildUniqueKey p orig obj

--------------------------------------------------------------------------------
-- Auxiliary predicates used by the verification statements
--------------------------------------------------------------------------------

mutual
/-- No schema node reachable by the key builder (through `When` or `Look`;
`For` subtrees are never consulted by `doBuildUniqueKey`) has `Incr` set. -/
def noIncrParam : IdentificationParameter → Bool
  | .mk _ _ incr whens looks _ _ _ =>
      !incr && noIncrWhens whens && noIncrLooks looks

/-- Predicate `noIncrParam` over the `When` children. -/
def noIncrWhens : List ConditionalIDParameter → Bool
  | [] => true
  | .mk _ _ sub :: rest => noIncrParam sub && noIncrWhens rest

/-- Predicate `noIncrParam` over the `Look` children. -/
def noIncrLooks : List IdentificationParameter → Bool
  | [] => true
  | sub :: rest => noIncrParam sub && noIncrLooks rest
end

mutual
/-- Erase every `_increments_` entry, at any depth, of a document value:
the part of the document the key builder may write. -/
def eraseIncrValue : Value → Value
  | .obj entries => .obj (eraseIncrEntries entries)
  | .arr items => .arr (eraseIncrItems items)
  | v => v
termination_by v => sizeOf v

/-- Erase every `_increments_` entry, at any depth, of a document object. -/
def eraseIncrEntries : List (String × Value) → List (String × Value)
  | [] => []
  | (k, v) :: rest =>
      if k = objINCREMENTS then eraseIncrEntries rest
      else (k, eraseIncrValue v) :: eraseIncrEntries rest
termination_by l => sizeOf l

/-- Erase every `_increments_` entry of every object of a slice. -/
def eraseIncrItems : List Obj → List Obj
  | [] => []
  | o :: rest => eraseIncrEntries o :: eraseIncrItems rest
termination_by l => sizeOf l
decreasing_by
  all_goals have h0 := list_sizeOf_pos rest
  all_goals simp
  all_goals omega
end

/-- Spec-side description of the array aggregation: recurse independently
for every element of the array, with the enclosing current object as the
container, in document order; collect each element's key, omitting empty
keys unless the child is non-conditional.  (It is compared below with the
implementation's `doLookArray`, which additionally threads the mutated
container through the element calls.) -/
def arrayKeysSpec (child : IdentificationParameter) (container : Obj) :
    List Obj → Except KeyErr (List String)
  | [] => .ok []
  | item :: rest =>
      match doBuildUniqueKey child container item with
      | .error e => .error e
      | .ok (key, _, _) =>
          match arrayKeysSpec child container rest with
          | .error e => .error e
          | .ok keys =>
              .ok (if key != "" || !child.conditional then key :: keys else keys)

mutual
/-- Every node of this subtree (through `When`, `Look` and `For`) carries
`conditional = true`. -/
def allCond : IdentificationParameter → Bool
  | .mk _ _ _ whens looks fors _ cond =>
      cond && allCondWhens whens && allCondLooks looks && allCondFors fors

/-- Predicate `allCond` over `When` children. -/
def allCondWhens : List ConditionalIDParameter → Bool
  | [] => true
  | .mk _ _ sub :: rest => allCond sub && allCondWhens rest

/-- Predicate `allCond` over `Look` children. -/
def allCondLooks : List IdentificationParameter → Bool
  | [] => true
  | sub :: rest => allCond sub && allCondLooks rest

/-- Predicate `allCond` over `For` children. -/
def allCondFors : List (String × IdentificationParameter) → Bool
  | [] => true
  | (_, sub) :: rest => allCond sub && allCondFors rest
end

mutual
/-- The conditional-flag invariant claimed for resolved schemas: every node
reached through a `When` entry is conditional together with its whole
subtree, and every node reached through `Look` or `For` carries exactly its
parent's flag; this holds recursively everywhere. -/
def flagsOk : IdentificationParameter → Bool
  | .mk _ _ _ whens looks fors _ cond =>
      flagsOkWhens whens && flagsOkChildren cond looks && flagsOkFors cond fors

/-- Rule for `When` children: conditional, with an all-conditional subtree, and
recursively well-flagged. -/
def flagsOkWhens : List ConditionalIDParameter → Bool
  | [] => true
  | .mk _ _ sub :: rest =>
      (sub.conditional && allCond sub && flagsOk sub) && flagsOkWhens rest

/-- Rule for `Look` children: same flag as the parent, recursively well-flagged. -/
def flagsOkChildren : Bool → List IdentificationParameter → Bool
  | _, [] => true
  | c, sub :: rest => ((sub.conditional == c) && flagsOk sub) && flagsOkChildren c rest

/-- Rule for `For` children: same flag as the parent, recursively well-flagged. -/
def flagsOkFors : Bool → List (String × IdentificationParameter) → Bool
  | _, [] => true
  | c, (_, sub) :: rest => ((sub.conditional == c) && flagsOk sub) && flagsOkFors c rest
end

--------------------------------------------------------------------------------
-- Helper lemmas: projections, association lists, erasure
--------------------------------------------------------------------------------

@[simp] theorem At_mk (a : String) (u : List String) (i : Bool)
    (w : List ConditionalIDParameter) (l : List IdentificationParameter)
    (f : List (String × IdentificationParameter)) (n : String) (c : Bool) :
    (IdentificationParameter.mk a u i w l f n c).At = a := rfl

@[simp] theorem Use_mk (a : String) (u : List String) (i : Bool)
    (w : List ConditionalIDParameter) (l : List IdentificationParameter)
    (f : List (String × IdentificationParameter)) (n : String) (c : Bool) :
    (IdentificationParameter.mk a u i w l f n c).Use = u := rfl

@[simp] theorem Incr_mk (a : String) (u : List String) (i : Bool)
    (w : List ConditionalIDParameter) (l : List IdentificationParameter)
    (f : List (String × IdentificationParameter)) (n : String) (c : Bool) :
    (IdentificationParameter.mk a u i w l f n c).Incr = i := rfl

@[simp] theorem When_mk (a : String) (u : List String) (i : Bool)
    (w : List ConditionalIDParameter) (l : List IdentificationParameter)
    (f : List (String × IdentificationParameter)) (n : String) (c : Bool) :
    (IdentificationParameter.mk a u i w l f n c).When = w := rfl

@[simp] theorem Look_mk (a : String) (u : List String) (i : Bool)
    (w : List ConditionalIDParameter) (l : List IdentificationParameter)
    (f : List (String × IdentificationParameter)) (n : String) (c : Bool) :
    (IdentificationParameter.mk a u i w l f n c).Look = l := rfl

@[simp] theorem Name_mk (a : String) (u : List String) (i : Bool)
    (w : List ConditionalIDParameter) (l : List IdentificationParameter)
    (f : List (String × IdentificationParameter)) (n : String) (c : Bool) :
    (IdentificationParameter.mk a u i w l f n c).Name = n := rfl

@[simp] theorem conditional_mk (a : String) (u : List String) (i : Bool)
    (w : List ConditionalIDParameter) (l : List IdentificationParameter)
    (f : List (String × IdentificationParameter)) (n : String) (c : Bool) :
    (IdentificationParameter.mk a u i w l f n c).conditional = c := rfl

@[simp] theorem Prop_mk (p i : String) (ip : IdentificationParameter) :
    (ConditionalIDParameter.mk p i ip).Prop_ = p := rfl

@[simp] theorem Is_mk (p i : String) (ip : IdentificationParameter) :
    (ConditionalIDParameter.mk p i ip).Is = i := rfl

@[simp] theorem toIdParam_mk (p i : String) (ip : IdentificationParameter) :
    (ConditionalIDParameter.mk p i ip).toIdParam = ip := rfl

theorem lookup_setEntry_self (m : Obj) (k : String) (v : Value) :
    lookupObj (setEntry m k v) k = some v := by
  induction m with
  | nil => simp [setEntry, lookupObj]
  | cons hd tl ih =>
      obtain ⟨k0, w0⟩ := hd
      by_cases hk : k0 = k
      · subst hk
        simp [setEntry, lookupObj]
      · simp [setEntry, lookupObj, hk, ih]

theorem lookup_setEntry_ne (m : Obj) (k k2 : String) (v : Value)
    (h : k2 ≠ k) : lookupObj (setEntry m k v) k2 = lookupObj m k2 := by
  induction m with
  | nil => simp [setEntry, lookupObj, Ne.symm h]
  | cons hd tl ih =>
      obtain ⟨k0, w0⟩ := hd
      by_cases hk : k0 = k
      · subst hk
        simp [setEntry, lookupObj, Ne.symm h]
      · simp only [setEntry, hk, if_false, lookupObj]
        by_cases hk2 : k0 = k2
        · simp [hk2]
        · simp [hk2, ih]

theorem setEntry_lookup_id {m : Obj} {k : String} {v : Value}
    (h : lookupObj m k = some v) : setEntry m k v = m := by
  induction m with
  | nil => simp [lookupObj] at h
  | cons hd tl ih =>
      obtain ⟨k0, w0⟩ := hd
      simp only [lookupObj] at h
      by_cases hk : k0 = k
      · rw [if_pos hk] at h
        cases h
        simp [setEntry, hk]
      · rw [if_neg hk] at h
        simp [setEntry, hk, ih h]

theorem erase_setEntry_incr (m : Obj) (v : Value) :
    eraseIncrEntries (setEntry m objINCREMENTS v) = eraseIncrEntries m := by
  induction m with
  | nil => simp [setEntry, eraseIncrEntries]
  | cons hd tl ih =>
      obtain ⟨k0, w0⟩ := hd
      by_cases hk : k0 = objINCREMENTS
      · subst hk
        simp [setEntry, eraseIncrEntries]
      · simp [setEntry, hk, eraseIncrEntries, ih]

theorem erase_setEntry_ne (m : Obj) (k : String) (v : Value)
    (h : k ≠ objINCREMENTS) :
    eraseIncrEntries (setEntry m k v)
      = setEntry (eraseIncrEntries m) k (eraseIncrValue v) := by
  induction m with
  | nil => simp [setEntry, eraseIncrEntries, h]
  | cons hd tl ih =>
      obtain ⟨k0, w0⟩ := hd
      by_cases hk : k0 = k
      · subst hk
        simp [setEntry, eraseIncrEntries, h]
      · by_cases hinc : k0 = objINCREMENTS
        · subst hinc
          simp [setEntry, hk, eraseIncrEntries, ih]
        · simp [setEntry, hk, hinc, eraseIncrEntries, ih]

theorem lookup_erase (m : Obj) (k : String) (h : k ≠ objINCREMENTS) :
    lookupObj (eraseIncrEntries m) k = Option.map eraseIncrValue (lookupObj m k) := by
  induction m with
  | nil => simp [eraseIncrEntries, lookupObj]
  | cons hd tl ih =>
      obtain ⟨k0, w0⟩ := hd
      by_cases hinc : k0 = objINCREMENTS
      · subst hinc
        have : objINCREMENTS ≠ k := fun hh => h hh.symm
        simp [eraseIncrEntries, lookupObj, this, ih]
      · by_cases hk : k0 = k
        · subst hk
          simp [eraseIncrEntries, hinc, lookupObj]
        · simp [eraseIncrEntries, hinc, lookupObj, hk, ih]
theorem incrInit_or (obj : Obj) :
    incrInit obj = obj ∨ incrInit obj = setEntry obj objINCREMENTS (.counters []) := by
  unfold incrInit
  split
  · right; rfl
  · right; rfl
  · left; rfl

theorem erase_incrInit (obj : Obj) :
    eraseIncrEntries (incrInit obj) = eraseIncrEntries obj := by
  rcases incrInit_or obj with h | h
  · rw [h]
  · rw [h, erase_setEntry_incr]

theorem incrKey_ok_inv {store : Obj} {key r : String} {store' : Obj}
    (h : incrKey store key = .ok (r, store')) :
    ∃ m, lookupObj (incrInit store) objINCREMENTS = some (.counters m)
      ∧ r = key ++ "#" ++ toString (lookupCount m key + 1)
      ∧ store' = setEntry (incrInit store) objINCREMENTS
          (.counters (setCount m key (lookupCount m key + 1))) := by
  unfold incrKey at h
  split at h
  · next m heq =>
      refine ⟨m, heq, ?_, ?_⟩
      · cases h
        rfl
      · cases h
        rfl
  · cases h

theorem incrKey_erase {store : Obj} {key r : String} {store' : Obj}
    (h : incrKey store key = .ok (r, store')) :
    eraseIncrEntries store' = eraseIncrEntries store := by
  obtain ⟨m, _, _, hset⟩ := incrKey_ok_inv h
  rw [hset, erase_setEntry_incr, erase_incrInit]

theorem incrKey_lookup_ne {store : Obj} {key r : String} {store' : Obj}
    (h : incrKey store key = .ok (r, store'))
    (k2 : String) (hk2 : k2 ≠ objINCREMENTS) :
    lookupObj store' k2 = lookupObj store k2 := by
  obtain ⟨m, _, _, hset⟩ := incrKey_ok_inv h
  rw [hset, lookup_setEntry_ne _ _ _ _ hk2]
  rcases incrInit_or store with h1 | h1
  · rw [h1]
  · rw [h1, lookup_setEntry_ne _ _ _ _ hk2]

theorem finishKey_ok_inv {p : IdentificationParameter} {orig obj : Obj}
    {r k : String} {o1 b1 : Obj}
    (h : finishKey p orig obj r = .ok (k, o1, b1)) :
    b1 = obj ∧ eraseIncrEntries o1 = eraseIncrEntries orig := by
  unfold finishKey at h
  split at h
  · split at h
    all_goals cases h
    all_goals exact ⟨rfl, incrKey_erase (by assumption)⟩
  · cases h
    exact ⟨rfl, rfl⟩

theorem finishKey_noincr (p : IdentificationParameter) (orig obj : Obj)
    (r : String) (h : p.Incr = false) :
    finishKey p orig obj r = .ok (r, orig, obj) := by
  unfold finishKey
  rw [h]
  simp

theorem erase_writeback_obj {obj obj1 target target1 : Obj} {at0 : String}
    (hl : lookupObj obj at0 = some (.obj target))
    (h1 : eraseIncrEntries obj1 = eraseIncrEntries obj)
    (h2 : eraseIncrEntries target1 = eraseIncrEntries target) :
    eraseIncrEntries (setEntry obj1 at0 (.obj target1)) = eraseIncrEntries obj := by
  by_cases hinc : at0 = objINCREMENTS
  · subst hinc
    rw [erase_setEntry_incr, h1]
  · rw [erase_setEntry_ne _ _ _ hinc, h1]
    have hv : eraseIncrValue (.obj target1) = eraseIncrValue (.obj target) := by
      simp [eraseIncrValue, h2]
    rw [hv]
    apply setEntry_lookup_id
    rw [lookup_erase _ _ hinc, hl]
    simp [eraseIncrValue]

theorem erase_writeback_arr {obj obj1 : Obj} {items items1 : List Obj} {at0 : String}
    (hl : lookupObj obj at0 = some (.arr items))
    (h1 : eraseIncrEntries obj1 = eraseIncrEntries obj)
    (h2 : eraseIncrItems items1 = eraseIncrItems items) :
    eraseIncrEntries (setEntry obj1 at0 (.arr items1)) = eraseIncrEntries obj := by
  by_cases hinc : at0 = objINCREMENTS
  · subst hinc
    rw [erase_setEntry_incr, h1]
  · rw [erase_setEntry_ne _ _ _ hinc, h1]
    have hv : eraseIncrValue (.arr items1) = eraseIncrValue (.arr items) := by
      simp [eraseIncrValue, h2]
    rw [hv]
    apply setEntry_lookup_id
    rw [lookup_erase _ _ hinc, hl]
    simp [eraseIncrValue]


mutual
theorem frame_build (p : IdentificationParameter) (orig obj : Obj) :
    ∀ k o1 b1, doBuildUniqueKey p orig obj = .ok (k, o1, b1) →
      eraseIncrEntries o1 = eraseIncrEntries orig
      ∧ eraseIncrEntries b1 = eraseIncrEntries obj := by
  intro k o1 b1 h
  unfold doBuildUniqueKey at h
  split at h
  · simp at h
  · next r orig1 obj1 heq =>
      have h1 := frame_tryWhen p.When orig obj r orig1 obj1 heq
      have h2 := finishKey_ok_inv h
      refine ⟨h2.2.trans h1.1, ?_⟩
      rw [h2.1]
      exact h1.2
  · next heq =>
      split at h
      · split at h
        · simp at h
        · next r orig1 obj1 hlook =>
            have h1 := frame_doLook p.Look orig obj "" r orig1 obj1 hlook
            split at h
            · simp at h
            · have h2 := finishKey_ok_inv h
              refine ⟨h2.2.trans h1.1, ?_⟩
              rw [h2.1]
              exact h1.2
      · split at h
        · simp at h
        · split at h
          · simp at h
          · have h2 := finishKey_ok_inv h
            exact ⟨h2.2, by rw [h2.1]⟩
termination_by (sizeOf p, 0)
decreasing_by
  all_goals apply Prod.Lex.left
  all_goals first
    | exact sizeOf_When_lt p
    | exact sizeOf_Look_lt p

theorem frame_tryWhen (whens : List ConditionalIDParameter) (orig obj : Obj) :
    ∀ r o1 b1, tryWhen whens orig obj = some (.ok (r, o1, b1)) →
      eraseIncrEntries o1 = eraseIncrEntries orig
      ∧ eraseIncrEntries b1 = eraseIncrEntries obj := by
  intro r o1 b1 h
  cases hw : whens with
  | nil =>
      rw [hw] at h
      simp [tryWhen] at h
  | cons condition rest =>
      rw [hw] at h
      unfold tryWhen at h
      split at h
      · rcases hb : doBuildUniqueKey condition.toIdParam orig obj with e | x
        · rw [hb] at h
          simp at h
        · obtain ⟨sub, orig1, obj1⟩ := x
          rw [hb] at h
          simp at h
          obtain ⟨_, ho, hbb⟩ := h
          have h1 := frame_build condition.toIdParam orig obj sub orig1 obj1 hb
          rw [ho, hbb] at h1
          exact h1
      · exact frame_tryWhen rest orig obj r o1 b1 h
termination_by (sizeOf whens, 0)
decreasing_by
  all_goals apply Prod.Lex.left
  all_goals subst hw
  all_goals have h1 := sizeOf_toIdParam_lt condition
  all_goals simp
  all_goals omega

theorem frame_doLook (looks : List IdentificationParameter) (orig obj : Obj)
    (acc : String) :
    ∀ r o1 b1, doLook looks orig obj acc = .ok (r, o1, b1) →
      eraseIncrEntries o1 = eraseIncrEntries orig
      ∧ eraseIncrEntries b1 = eraseIncrEntries obj := by
  intro r o1 b1 h
  cases hlk : looks with
  | nil =>
      rw [hlk] at h
      unfold doLook at h
      simp at h
      obtain ⟨_, ho, hb⟩ := h
      rw [← ho, ← hb]
      exact ⟨rfl, rfl⟩
  | cons nextIdParam rest =>
      rw [hlk] at h
      unfold doLook at h
      split at h
      · split at h
        · simp at h
        · next k orig1 obj1 hb =>
            have h1 := frame_build nextIdParam orig obj k orig1 obj1 hb
            have h2 := frame_doLook rest orig1 obj1
              (concatSeparatedString acc sepPLUS k) r o1 b1 h
            exact ⟨h2.1.trans h1.1, h2.2.trans h1.2⟩
      · split at h
        · next target hl =>
            split at h
            · simp at h
            · next k obj1 target1 hb =>
                have h1 := frame_build nextIdParam obj target k obj1 target1 hb
                have h2 := frame_doLook rest orig
                  (setEntry obj1 nextIdParam.At (.obj target1))
                  (concatSeparatedString acc sepPLUS k) r o1 b1 h
                refine ⟨h2.1, ?_⟩
                rw [h2.2]
                exact erase_writeback_obj hl h1.1 h1.2
        · next targetItems hl =>
            split at h
            · simp at h
            · next values obj1 items1 ha =>
                have h1 := frame_doLookArray nextIdParam targetItems obj
                  values obj1 items1 ha
                have h2 := frame_doLook rest orig
                  (setEntry obj1 nextIdParam.At (.arr items1))
                  (concatSeparatedString acc sepPLUS
                    (String.intercalate sepPIPE values)) r o1 b1 h
                refine ⟨h2.1, ?_⟩
                rw [h2.2]
                exact erase_writeback_arr hl h1.1 h1.2
        · exact frame_doLook rest orig obj
            (concatSeparatedString acc sepPLUS (nextIdParam.At ++ "empty ??"))
            r o1 b1 h
        · exact frame_doLook rest orig obj
            (concatSeparatedString acc sepPLUS ("(" ++ nextIdParam.At ++ ")"))
            r o1 b1 h
        · simp at h
termination_by (sizeOf looks, 0)
decreasing_by
  all_goals apply Prod.Lex.left
  all_goals subst hlk
  all_goals simp
  all_goals omega

theorem frame_doLookArray (child : IdentificationParameter) (items : List Obj)
    (store : Obj) :
    ∀ vals store' items', doLookArray child items store = .ok (vals, store', items') →
      eraseIncrEntries store' = eraseIncrEntries store
      ∧ eraseIncrItems items' = eraseIncrItems items := by
  intro vals store' items' h
  cases hi : items with
  | nil =>
      rw [hi] at h
      unfold doLookArray at h
      simp at h
      obtain ⟨_, hs, hit⟩ := h
      rw [← hs, ← hit]
      exact ⟨rfl, rfl⟩
  | cons targetItem rest =>
      rw [hi] at h
      unfold doLookArray at h
      split at h
      · simp at h
      · next key store1 item1 hb =>
          split at h
          · simp at h
          · next values store2 rest1 ha =>
              have h1 := frame_build child store targetItem key store1 item1 hb
              have h2 := frame_doLookArray child rest store1 values store2 rest1 ha
              simp at h
              obtain ⟨_, hs, hit⟩ := h
              refine ⟨?_, ?_⟩
              · rw [← hs]
                exact h2.1.trans h1.1
              · rw [← hit]
                unfold eraseIncrItems
                rw [h2.2, h1.2]
termination_by (sizeOf child, 1 + sizeOf items)
decreasing_by
  all_goals apply Prod.Lex.right
  all_goals subst hi
  all_goals simp
  all_goals omega
end

theorem noIncrParam_spec {p : IdentificationParameter}
    (h : noIncrParam p = true) :
    p.Incr = false ∧ noIncrWhens p.When = true ∧ noIncrLooks p.Look = true := by
  cases p
  unfold noIncrParam at h
  simp only [Bool.and_eq_true, Bool.not_eq_true'] at h
  simp only [Incr_mk, When_mk, Look_mk]
  tauto

theorem noIncrWhens_cons {c : ConditionalIDParameter}
    {rest : List ConditionalIDParameter}
    (h : noIncrWhens (c :: rest) = true) :
    noIncrParam c.toIdParam = true ∧ noIncrWhens rest = true := by
  cases c
  unfold noIncrWhens at h
  simp at h
  simpa using h

theorem noIncrLooks_cons {c : IdentificationParameter}
    {rest : List IdentificationParameter}
    (h : noIncrLooks (c :: rest) = true) :
    noIncrParam c = true ∧ noIncrLooks rest = true := by
  unfold noIncrLooks at h
  simp at h
  exact h

mutual
theorem noincr_build (p : IdentificationParameter) (orig obj : Obj)
    (hno : noIncrParam p = true) :
    ∀ k o1 b1, doBuildUniqueKey p orig obj = .ok (k, o1, b1) →
      o1 = orig ∧ b1 = obj := by
  intro k o1 b1 h
  obtain ⟨hincr, hwhens, hlooks⟩ := noIncrParam_spec hno
  unfold doBuildUniqueKey at h
  split at h
  · simp at h
  · next r orig1 obj1 heq =>
      have h1 := noincr_tryWhen p.When orig obj hwhens r orig1 obj1 heq
      rw [finishKey_noincr _ _ _ _ hincr] at h
      simp at h
      obtain ⟨_, ho, hb⟩ := h
      rw [← ho, ← hb]
      exact h1
  · next heq =>
      split at h
      · split at h
        · simp at h
        · next r orig1 obj1 hlook =>
            have h1 := noincr_doLook p.Look orig obj "" hlooks r orig1 obj1 hlook
            split at h
            · simp at h
            · rw [finishKey_noincr _ _ _ _ hincr] at h
              simp at h
              obtain ⟨_, ho, hb⟩ := h
              rw [← ho, ← hb]
              exact h1
      · split at h
        · simp at h
        · split at h
          · simp at h
          · rw [finishKey_noincr _ _ _ _ hincr] at h
            simp at h
            obtain ⟨_, ho, hb⟩ := h
            rw [← ho, ← hb]
            exact ⟨rfl, rfl⟩
termination_by (sizeOf p, 0)
decreasing_by
  all_goals apply Prod.Lex.left
  all_goals first
    | exact sizeOf_When_lt p
    | exact sizeOf_Look_lt p

theorem noincr_tryWhen (whens : List ConditionalIDParameter) (orig obj : Obj)
    (hno : noIncrWhens whens = true) :
    ∀ r o1 b1, tryWhen whens orig obj = some (.ok (r, o1, b1)) →
      o1 = orig ∧ b1 = obj := by
  intro r o1 b1 h
  cases hw : whens with
  | nil =>
      rw [hw] at h
      simp [tryWhen] at h
  | cons condition rest =>
      rw [hw] at hno h
      obtain ⟨hc, hrest⟩ := noIncrWhens_cons hno
      unfold tryWhen at h
      split at h
      · rcases hb : doBuildUniqueKey condition.toIdParam orig obj with e | x
        · rw [hb] at h
          simp at h
        · obtain ⟨sub, orig1, obj1⟩ := x
          rw [hb] at h
          simp at h
          obtain ⟨_, ho, hbb⟩ := h
          have h1 := noincr_build condition.toIdParam orig obj hc sub orig1 obj1 hb
          rw [ho, hbb] at h1
          exact h1
      · exact noincr_tryWhen rest orig obj hrest r o1 b1 h
termination_by (sizeOf whens, 0)
decreasing_by
  all_goals apply Prod.Lex.left
  all_goals subst hw
  all_goals have h1 := sizeOf_toIdParam_lt condition
  all_goals simp
  all_goals omega

theorem noincr_doLook (looks : List IdentificationParameter) (orig obj : Obj)
    (acc : String) (hno : noIncrLooks looks = true) :
    ∀ r o1 b1, doLook looks orig obj acc = .ok (r, o1, b1) →
      o1 = orig ∧ b1 = obj := by
  intro r o1 b1 h
  cases hlk : looks with
  | nil =>
      rw [hlk] at h
      unfold doLook at h
      simp at h
      obtain ⟨_, ho, hb⟩ := h
      rw [← ho, ← hb]
      exact ⟨rfl, rfl⟩
  | cons nextIdParam rest =>
      rw [hlk] at hno h
      obtain ⟨hc, hrest⟩ := noIncrLooks_cons hno
      unfold doLook at h
      split at h
      · split at h
        · simp at h
        · next k orig1 obj1 hb =>
            have h1 := noincr_build nextIdParam orig obj hc k orig1 obj1 hb
            obtain ⟨ho1, hb1⟩ := h1
            rw [ho1, hb1] at h
            exact noincr_doLook rest orig obj
              (concatSeparatedString acc sepPLUS k) hrest r o1 b1 h
      · split at h
        · next target hl =>
            split at h
            · simp at h
            · next k obj1 target1 hb =>
                have h1 := noincr_build nextIdParam obj target hc k obj1 target1 hb
                obtain ⟨ho1, hb1⟩ := h1
                rw [ho1, hb1, setEntry_lookup_id hl] at h
                exact noincr_doLook rest orig obj
                  (concatSeparatedString acc sepPLUS k) hrest r o1 b1 h
        · next targetItems hl =>
            split at h
            · simp at h
            · next values obj1 items1 ha =>
                have h1 := noincr_doLookArray nextIdParam targetItems obj hc
                  values obj1 items1 ha
                obtain ⟨ho1, hb1⟩ := h1
                rw [ho1, hb1, setEntry_lookup_id hl] at h
                exact noincr_doLook rest orig obj
                  (concatSeparatedString acc sepPLUS
                    (String.intercalate sepPIPE values)) hrest r o1 b1 h
        · exact noincr_doLook rest orig obj
            (concatSeparatedString acc sepPLUS (nextIdParam.At ++ "empty ??"))
            hrest r o1 b1 h
        · exact noincr_doLook rest orig obj
            (concatSeparatedString acc sepPLUS ("(" ++ nextIdParam.At ++ ")"))
            hrest r o1 b1 h
        · simp at h
termination_by (sizeOf looks, 0)
decreasing_by
  all_goals apply Prod.Lex.left
  all_goals subst hlk
  all_goals simp
  all_goals omega

theorem noincr_doLookArray (child : IdentificationParameter) (items : List Obj)
    (store : Obj) (hno : noIncrParam child = true) :
    ∀ vals store' items', doLookArray child items store = .ok (vals, store', items') →
      store' = store ∧ items' = items := by
  intro vals store' items' h
  cases hi : items with
  | nil =>
      rw [hi] at h
      unfold doLookArray at h
      simp at h
      obtain ⟨_, hs, hit⟩ := h
      rw [← hs, ← hit]
      exact ⟨rfl, rfl⟩
  | cons targetItem rest =>
      rw [hi] at h
      unfold doLookArray at h
      split at h
      · simp at h
      · next key store1 item1 hb =>
          split at h
          · simp at h
          · next values store2 rest1 ha =>
              have h1 := noincr_build child store targetItem hno key store1 item1 hb
              obtain ⟨hs1, hi1⟩ := h1
              rw [hs1] at ha
              have h2 := noincr_doLookArray child rest store hno values store2 rest1 ha
              obtain ⟨hs2, hi2⟩ := h2
              simp at h
              obtain ⟨_, hs, hit⟩ := h
              constructor
              · rw [← hs, hs2]
              · rw [← hit, hi1, hi2]
termination_by (sizeOf child, 1 + sizeOf items)
decreasing_by
  all_goals apply Prod.Lex.right
  all_goals subst hi
  all_goals simp
  all_goals omega
end

theorem concat_right_empty (a sep : String) :
    concatSeparatedString a sep "" = a := by
  unfold concatSeparatedString
  by_cases h : a = "" <;> simp [h]

theorem concat_left_empty (sep b : String) :
    concatSeparatedString "" sep b = b := by
  unfold concatSeparatedString
  simp

theorem concat_nonempty (a sep b : String) (ha : a ≠ "") (hb : b ≠ "") :
    concatSeparatedString a sep b = a ++ sep ++ b := by
  unfold concatSeparatedString
  simp [ha, hb]

theorem buildUseKey_all_empty (obj : Obj) (us : List String) (acc : String)
    (h : ∀ u ∈ us, getStringValueFromObj obj u = .ok "") :
    buildUseKey obj us acc = .ok acc := by
  induction us generalizing acc with
  | nil => simp [buildUseKey]
  | cons u rest ih =>
      unfold buildUseKey
      rw [h u (by simp)]
      show buildUseKey obj rest (concatSeparatedString acc sepPLUS "") = .ok acc
      rw [concat_right_empty]
      exact ih _ (fun v hv => h v (by simp [hv]))

theorem tryWhen_of_find?_none (whens : List ConditionalIDParameter)
    (orig obj : Obj)
    (h : whens.find? (fun c => isVerifiedBy c obj) = none) :
    tryWhen whens orig obj = none := by
  induction whens with
  | nil => simp [tryWhen]
  | cons condition rest ih =>
      unfold tryWhen
      rcases hv : isVerifiedBy condition obj with _ | _
      · rw [List.find?_cons_of_neg _ (by simp [hv])] at h
        simp [hv]
        exact ih h
      · rw [List.find?_cons_of_pos _ (by simp [hv])] at h
        simp at h

theorem tryWhen_of_find?_some (whens : List ConditionalIDParameter)
    (orig obj : Obj) (cond : ConditionalIDParameter)
    (h : whens.find? (fun c => isVerifiedBy c obj) = some cond) :
    tryWhen whens orig obj
      = some (match doBuildUniqueKey cond.toIdParam orig obj with
              | .error e => .error e
              | .ok (sub, orig1, obj1) =>
                  .ok (concatSeparatedString cond.toIdParam.Name sepPLUS sub,
                       orig1, obj1)) := by
  induction whens with
  | nil => simp [List.find?] at h
  | cons condition rest ih =>
      unfold tryWhen
      rcases hv : isVerifiedBy condition obj with _ | _
      · rw [List.find?_cons_of_neg _ (by simp [hv])] at h
        simp [hv]
        exact ih h
      · rw [List.find?_cons_of_pos _ (by simp [hv])] at h
        simp only [Option.some_inj] at h
        simp [hv, ← h]

theorem doLookArray_spec (child : IdentificationParameter) (items : List Obj)
    (store : Obj) (hno : noIncrParam child = true) :
    doLookArray child items store
      = match arrayKeysSpec child store items with
        | .error e => .error e
        | .ok keys => .ok (keys, store, items) := by
  induction items with
  | nil => simp [doLookArray, arrayKeysSpec]
  | cons it rest ih =>
      rcases hb : doBuildUniqueKey child store it with e | x
      · unfold doLookArray arrayKeysSpec
        simp only [hb]
      · obtain ⟨key, store1, item1⟩ := x
        obtain ⟨hs1, hi1⟩ := noincr_build child store it hno key store1 item1 hb
        rw [hs1, hi1] at hb
        unfold doLookArray arrayKeysSpec
        simp only [hb, ih]
        rcases hk : arrayKeysSpec child store rest with e2 | keys <;> simp [hk]

theorem resolve_conditional (c : Bool) (d : Option String)
    (p : IdentificationParameter) : (doResolve c d p).conditional = c := by
  cases p
  unfold doResolve
  simp

mutual
theorem resolve_allCond (d : Option String) (p : IdentificationParameter) :
    allCond (doResolve true d p) = true := by
  cases hp : p with
  | mk at0 use incr whens looks fors name cond =>
      simp only [doResolve, allCond]
      rw [resolve_allCondWhens _ whens, resolve_allCondLooks looks,
          resolve_allCondFors fors]
      rfl
termination_by (sizeOf p, 0)
decreasing_by
  all_goals apply Prod.Lex.left
  all_goals subst hp
  all_goals simp
  all_goals omega

theorem resolve_allCondWhens (parentAt : String)
    (whens : List ConditionalIDParameter) :
    allCondWhens (resolveWhens parentAt whens) = true := by
  cases hw : whens with
  | nil => simp [resolveWhens, allCondWhens]
  | cons condition rest =>
      obtain ⟨pr, is, sub⟩ := condition
      unfold resolveWhens allCondWhens
      simp only [Bool.and_eq_true]
      exact ⟨resolve_allCond (some parentAt) sub, resolve_allCondWhens parentAt rest⟩
termination_by (sizeOf whens, 0)
decreasing_by
  all_goals apply Prod.Lex.left
  all_goals subst hw
  all_goals simp
  all_goals omega

theorem resolve_allCondLooks (looks : List IdentificationParameter) :
    allCondLooks (resolveLooks true looks) = true := by
  cases hl : looks with
  | nil => simp [resolveLooks, allCondLooks]
  | cons sub rest =>
      unfold resolveLooks allCondLooks
      simp only [Bool.and_eq_true]
      exact ⟨resolve_allCond none sub, resolve_allCondLooks rest⟩
termination_by (sizeOf looks, 0)
decreasing_by
  all_goals apply Prod.Lex.left
  all_goals subst hl
  all_goals simp
  all_goals omega

theorem resolve_allCondFors (fors : List (String × IdentificationParameter)) :
    allCondFors (resolveFors true fors) = true := by
  cases hf : fors with
  | nil => simp [resolveFors, allCondFors]
  | cons pathsub rest =>
      obtain ⟨path, sub⟩ := pathsub
      unfold resolveFors allCondFors
      simp only [Bool.and_eq_true]
      exact ⟨resolve_allCond (some path) sub, resolve_allCondFors rest⟩
termination_by (sizeOf fors, 0)
decreasing_by
  all_goals apply Prod.Lex.left
  all_goals subst hf
  all_goals simp
  all_goals omega
end

mutual
theorem resolve_flagsOk (c : Bool) (d : Option String)
    (p : IdentificationParameter) : flagsOk (doResolve c d p) = true := by
  cases hp : p with
  | mk at0 use incr whens looks fors name cond =>
      simp only [doResolve, flagsOk]
      rw [resolve_flagsOkWhens _ whens, resolve_flagsOkChildren c looks,
          resolve_flagsOkFors c fors]
      rfl
termination_by (sizeOf p, 0)
decreasing_by
  all_goals apply Prod.Lex.left
  all_goals subst hp
  all_goals simp
  all_goals omega

theorem resolve_flagsOkWhens (parentAt : String)
    (whens : List ConditionalIDParameter) :
    flagsOkWhens (resolveWhens parentAt whens) = true := by
  cases hw : whens with
  | nil => simp [resolveWhens, flagsOkWhens]
  | cons condition rest =>
      obtain ⟨pr, is, sub⟩ := condition
      simp only [resolveWhens, flagsOkWhens]
      rw [resolve_conditional, resolve_allCond (some parentAt) sub,
          resolve_flagsOk true (some parentAt) sub,
          resolve_flagsOkWhens parentAt rest]
      rfl
termination_by (sizeOf whens, 0)
decreasing_by
  all_goals apply Prod.Lex.left
  all_goals subst hw
  all_goals simp
  all_goals omega

theorem resolve_flagsOkChildren (c : Bool)
    (looks : List IdentificationParameter) :
    flagsOkChildren c (resolveLooks c looks) = true := by
  cases hl : looks with
  | nil => simp [resolveLooks, flagsOkChildren]
  | cons sub rest =>
      simp only [resolveLooks, flagsOkChildren]
      rw [resolve_conditional, resolve_flagsOk c none sub,
          resolve_flagsOkChildren c rest]
      simp
termination_by (sizeOf looks, 0)
decreasing_by
  all_goals apply Prod.Lex.left
  all_goals subst hl
  all_goals simp
  all_goals omega

theorem resolve_flagsOkFors (c : Bool)
    (fors : List (String × IdentificationParameter)) :
    flagsOkFors c (resolveFors c fors) = true := by
  cases hf : fors with
  | nil => simp [resolveFors, flagsOkFors]
  | cons pathsub rest =>
      obtain ⟨path, sub⟩ := pathsub
      simp only [resolveFors, flagsOkFors]
      rw [resolve_conditional, resolve_flagsOk c (some path) sub,
          resolve_flagsOkFors c rest]
      simp
termination_by (sizeOf fors, 0)
decreasing_by
  all_goals apply Prod.Lex.left
  all_goals subst hf
  all_goals simp
  all_goals omega
end

--------------------------------------------------------------------------------
-- Claim theorems
--------------------------------------------------------------------------------

/-- C6: after `Resolve()` on a root schema node, the root has
`conditional = false`; every node reached through a `When` entry, and every
node nested anywhere below such a node, has `conditional = true` (the
`allCond` part of `flagsOk`); and every node reached through `Look` or `For`
carries exactly the same `conditional` flag as its parent. -/
theorem c6_resolve_conditional_flags (p : IdentificationParameter) :
    (Resolve p).conditional = false ∧ flagsOk (Resolve p) = true :=
  ⟨resolve_conditional false none p, resolve_flagsOk false none p⟩

/-- C7: `concatSeparatedString` treats an empty side as the identity and
never inserts a dangling separator: `concat(a, sep, "") = a`,
`concat("", sep, b) = b`, hence
`concat(concat(a, "+", ""), "+", b) = concat(a, "+", b)`; when both sides
are non-empty the result is `a ++ sep ++ b`. -/
theorem c7_concat_skips_empties (a b sep : String) :
    concatSeparatedString a sep "" = a
    ∧ concatSeparatedString "" sep b = b
    ∧ concatSeparatedString (concatSeparatedString a "+" "") "+" b
        = concatSeparatedString a "+" b
    ∧ (a ≠ "" → b ≠ "" → concatSeparatedString a sep b = a ++ sep ++ b) :=
  ⟨concat_right_empty a sep, concat_left_empty sep b,
   by rw [concat_right_empty],
   fun ha hb => concat_nonempty a sep b ha hb⟩

/-- Witness for `c7_concat_skips_empties` at `a = "x"`, `b = "y"`,
`sep = "+"`. -/
theorem c7_concat_skips_empties_witness :
    concatSeparatedString "x" "+" "y" = "x" ++ "+" ++ "y" :=
  (c7_concat_skips_empties "x" "y" "+").2.2.2 (by decide) (by decide)

/-- C10: for every gate and every object in which the gated property is
absent or mapped to null, `isVerifiedBy` holds exactly when `Is` is the
literal `"<nil>"` - the gate does not distinguish an absent property from a
null one. -/
theorem c10_nil_gate (c : ConditionalIDParameter) (obj : Obj)
    (h : lookupObj obj c.Prop_ = none ∨ lookupObj obj c.Prop_ = some .null) :
    isVerifiedBy c obj = true ↔ c.Is = "<nil>" := by
  unfold isVerifiedBy
  have hnil : goSprintValue Value.null = "<nil>" := by
    unfold goSprintValue
    rfl
  rcases h with h | h <;> rw [h] <;>
    simp only [goSprintV, hnil, beq_iff_eq] <;>
    exact eq_comm

/-- Witness for `c10_nil_gate`: the gate `prop = "p"`, `is = "<nil>"` is
verified by the empty object (property absent). -/
theorem c10_nil_gate_witness :
    isVerifiedBy (.mk "p" "<nil>" (.mk "" [] false [] [] [] "" false)) [] = true :=
  (c10_nil_gate (.mk "p" "<nil>" (.mk "" [] false [] [] [] "" false)) []
    (Or.inl rfl)).mpr rfl

/-- C9: the only mutation `BuildUniqueKey` performs on the document is to
`_increments_` entries of containers: both returned objects are unchanged
after erasing every `_increments_` entry; when no reachable schema node has
`Incr` set the document is not mutated at all; and `incrKey` itself leaves
every key other than `_increments_` of the container untouched. -/
theorem c9_frame_effect (p : IdentificationParameter) (orig obj : Obj)
    (k : String) (o1 b1 : Obj)
    (h : BuildUniqueKey p orig obj = .ok (k, o1, b1)) :
    eraseIncrEntries o1 = eraseIncrEntries orig
    ∧ eraseIncrEntries b1 = eraseIncrEntries obj
    ∧ (noIncrParam p = true → o1 = orig ∧ b1 = obj)
    ∧ (∀ (store : Obj) (key r : String) (store' : Obj),
        incrKey store key = .ok (r, store') →
        ∀ k2, k2 ≠ objINCREMENTS → lookupObj store' k2 = lookupObj store k2) := by
  obtain ⟨h1, h2⟩ := frame_build p orig obj k o1 b1 h
  exact ⟨h1, h2, fun hno => noincr_build p orig obj hno k o1 b1 h,
    fun store key r store' hik k2 hk2 => incrKey_lookup_ne hik k2 hk2⟩

/-- Witness for `c9_frame_effect`: an `Incr` node writes only the
`_increments_` entry of the container; the current object keeps its data
entry. -/
theorem c9_frame_effect_witness :
    eraseIncrEntries [(objINCREMENTS, Value.counters [("X", 1)])]
        = eraseIncrEntries ([] : Obj)
    ∧ eraseIncrEntries [("p", Value.str "X")] = eraseIncrEntries [("p", Value.str "X")]
    ∧ (noIncrParam (.mk "x" ["p"] true [] [] [] "" false) = true →
        [(objINCREMENTS, Value.counters [("X", 1)])] = ([] : Obj)
        ∧ [("p", Value.str "X")] = [("p", Value.str "X")])
    ∧ (∀ (store : Obj) (key r : String) (store' : Obj),
        incrKey store key = .ok (r, store') →
        ∀ k2, k2 ≠ objINCREMENTS → lookupObj store' k2 = lookupObj store k2) := by
  have h : BuildUniqueKey (.mk "x" ["p"] true [] [] [] "" false) [] [("p", .str "X")]
      = .ok ("X#1", [(objINCREMENTS, .counters [("X", 1)])], [("p", .str "X")]) := by
    simp [BuildUniqueKey, doBuildUniqueKey, tryWhen, doLook, buildUseKey,
      getStringValueFromObj, stringOfLookedUp, lookupObj, finishKey, incrKey,
      incrInit, setEntry, lookupCount, setCount, objINCREMENTS,
      concatSeparatedString, sepPLUS]
    rfl
  exact c9_frame_effect (.mk "x" ["p"] true [] [] [] "" false) [] [("p", .str "X")]
    "X#1" [(objINCREMENTS, .counters [("X", 1)])] [("p", .str "X")] h

/-- C2 (counterexample): with `Incr` set, two successive invocations of
`BuildUniqueKey` on the same schema node and the same document pair return
different keys - the first yields `"X#1"` and mutates the container, after
which the identical call yields `"X#2"`. -/
theorem c2_counterexample :
    BuildUniqueKey (.mk "x" ["p"] true [] [] [] "" false) [] [("p", .str "X")]
      = .ok ("X#1", [(objINCREMENTS, .counters [("X", 1)])], [("p", .str "X")])
    ∧ BuildUniqueKey (.mk "x" ["p"] true [] [] [] "" false)
        [(objINCREMENTS, .counters [("X", 1)])] [("p", .str "X")]
      = .ok ("X#2", [(objINCREMENTS, .counters [("X", 2)])], [("p", .str "X")])
    ∧ ("X#1" : String) ≠ "X#2" := by
  refine ⟨?_, ?_, by decide⟩ <;>
    (simp [BuildUniqueKey, doBuildUniqueKey, tryWhen, doLook, buildUseKey,
      getStringValueFromObj, stringOfLookedUp, lookupObj, finishKey, incrKey,
      incrInit, setEntry, lookupCount, setCount, objINCREMENTS,
      concatSeparatedString, sepPLUS]; rfl)

/-- C2 (amended): `BuildUniqueKey` is deterministic as a function of the
explicit document state; when no reachable schema node has `Incr` set, the
invocation leaves both objects unchanged, so an immediately repeated
invocation returns the identical key.  (With `Incr` set, the counter stored
in the container advances, and a repeated invocation returns a different
key - see the counterexample.) -/
theorem c2_determinism (p : IdentificationParameter) (orig obj : Obj)
    (k : String) (o1 b1 : Obj)
    (hno : noIncrParam p = true)
    (h : BuildUniqueKey p orig obj = .ok (k, o1, b1)) :
    o1 = orig ∧ b1 = obj ∧ BuildUniqueKey p o1 b1 = .ok (k, o1, b1) := by
  obtain ⟨ho, hb⟩ := noincr_build p orig obj hno k o1 b1 h
  refine ⟨ho, hb, ?_⟩
  rw [ho, hb]
  rw [ho, hb] at h
  exact h

/-- Witness for `c2_determinism` on a plain `Use` node without `Incr`. -/
theorem c2_determinism_witness :
    ([] : Obj) = [] ∧ [("p", Value.str "X")] = [("p", Value.str "X")]
    ∧ BuildUniqueKey (.mk "x" ["p"] false [] [] [] "" false) [] [("p", .str "X")]
        = .ok ("X", [], [("p", .str "X")]) := by
  have h : BuildUniqueKey (.mk "x" ["p"] false [] [] [] "" false) [] [("p", .str "X")]
      = .ok ("X", [], [("p", .str "X")]) := by
    simp [BuildUniqueKey, doBuildUniqueKey, tryWhen, doLook, buildUseKey,
      getStringValueFromObj, stringOfLookedUp, lookupObj, finishKey,
      concatSeparatedString, sepPLUS]
  exact c2_determinism (.mk "x" ["p"] false [] [] [] "" false) [] [("p", .str "X")]
    "X" [] [("p", .str "X")] (by simp [noIncrParam, noIncrWhens, noIncrLooks]) h

/-- C1 (counterexample): a non-conditional node whose `Use` list names only
properties absent from the current object does not abort: each absent
property extracts to the non-empty placeholder `"(p)"`, so the key is
`"(p)"`, not an `EmptyKeyError`; and the conditional twin returns `"(p)"`,
not `""`. -/
theorem c1_counterexample :
    BuildUniqueKey (.mk "x" ["p"] false [] [] [] "" false) [] []
      = .ok ("(p)", [], [])
    ∧ BuildUniqueKey (.mk "x" ["p"] false [] [] [] "" true) [] []
      = .ok ("(p)", [], [])
    ∧ ("(p)" : String) ≠ "" := by
  refine ⟨?_, ?_, by decide⟩ <;>
    simp [BuildUniqueKey, doBuildUniqueKey, tryWhen, doLook, buildUseKey,
      getStringValueFromObj, stringOfLookedUp, lookupObj, finishKey,
      concatSeparatedString, sepPLUS]

/-- C1 (amended): the empty-key abort happens when every `Use` property
extracts to the empty string (for instance, present with empty-string
values): then a non-conditional node aborts with `EmptyKeyError` and the
identical node marked conditional returns `""`.  A `Use` list naming only
absent properties instead yields the non-empty parenthesized key (see the
counterexample). -/
theorem c1_fatal_on_empty (p : IdentificationParameter) (orig obj : Obj)
    (hwhen : p.When = []) (huse : p.Use ≠ []) (hincr : p.Incr = false)
    (hempty : ∀ u ∈ p.Use, getStringValueFromObj obj u = .ok "") :
    (p.conditional = false → BuildUniqueKey p orig obj = .error .emptyKey)
    ∧ (p.conditional = true → BuildUniqueKey p orig obj = .ok ("", orig, obj)) := by
  have hw : tryWhen p.When orig obj = none := by
    rw [hwhen]
    unfold tryWhen
    rfl
  have hu : p.Use.isEmpty = false := by
    cases hx : p.Use with
    | nil => exact absurd hx huse
    | cons a l => simp
  have hb := buildUseKey_all_empty obj p.Use "" hempty
  constructor
  · intro hc
    unfold BuildUniqueKey doBuildUniqueKey
    simp [hw, hu, hb, hc]
  · intro hc
    unfold BuildUniqueKey doBuildUniqueKey
    simp [hw, hu, hb, hc, finishKey, hincr]

/-- Witness for `c1_fatal_on_empty`: `Use = ["p"]` over an object whose
`"p"` is the empty string. -/
theorem c1_fatal_on_empty_witness :
    BuildUniqueKey (.mk "x" ["p"] false [] [] [] "" false) [] [("p", .str "")]
      = .error .emptyKey
    ∧ BuildUniqueKey (.mk "x" ["p"] false [] [] [] "" true) [] [("p", .str "")]
      = .ok ("", [], [("p", .str "")]) := by
  have hemp : ∀ u ∈ ["p"], getStringValueFromObj [("p", Value.str "")] u = .ok "" := by
    intro u hu
    simp at hu
    subst hu
    simp [getStringValueFromObj, stringOfLookedUp, lookupObj]
  constructor
  · exact (c1_fatal_on_empty (.mk "x" ["p"] false [] [] [] "" false) [] [("p", .str "")]
      rfl (by simp) rfl hemp).1 rfl
  · exact (c1_fatal_on_empty (.mk "x" ["p"] false [] [] [] "" true) [] [("p", .str "")]
      rfl (by simp) rfl hemp).2 rfl

/-- C3 (counterexample): on a resolved schema whose single `When` branch is
verified and has `Name = "N"`, a branch key that comes out empty (the
branch is conditional, so that is permitted) makes the node's result the
bare `"N"` - `concatSeparatedString` drops the separator, so the result does
not start with `"N+"`. -/
theorem c3_counterexample :
    BuildUniqueKey
      (Resolve (.mk "r" [] false
        [.mk "q" "<nil>" (.mk "" ["p"] false [] [] [] "N" false)] [] [] "" false))
      [] [("p", .str "")]
      = .ok ("N", [], [("p", .str "")])
    ∧ ("N" : String).startsWith ("N" ++ sepPLUS) = false := by
  refine ⟨?_, by decide⟩
  simp [BuildUniqueKey, doBuildUniqueKey, tryWhen, doLook, buildUseKey,
    Resolve, doResolve, resolveWhens, resolveLooks, resolveFors,
    getStringValueFromObj, stringOfLookedUp, lookupObj, finishKey,
    isVerifiedBy, goSprintV, goSprintValue,
    concatSeparatedString, sepPLUS]

theorem build_of_tryWhen_err {p : IdentificationParameter} {orig obj : Obj}
    {e : KeyErr} (h : tryWhen p.When orig obj = some (.error e)) :
    doBuildUniqueKey p orig obj = .error e := by
  conv_lhs => unfold doBuildUniqueKey
  split
  · next e2 heq =>
      rw [heq] at h
      cases h
      rfl
  · next r2 o2 b2 heq =>
      rw [heq] at h
      cases h
  · next heq =>
      rw [heq] at h
      cases h

theorem build_of_tryWhen_ok {p : IdentificationParameter} {orig obj : Obj}
    {r : String} {o1 b1 : Obj}
    (h : tryWhen p.When orig obj = some (.ok (r, o1, b1))) :
    doBuildUniqueKey p orig obj = finishKey p o1 b1 r := by
  conv_lhs => unfold doBuildUniqueKey
  split
  · next e2 heq =>
      rw [heq] at h
      cases h
  · next r2 o2 b2 heq =>
      rw [heq] at h
      cases h
      rfl
  · next heq =>
      rw [heq] at h
      cases h

/-- C3 (amended): when some `When` condition is verified, the first one in
declared order (`List.find?`) wins: the node's result is exactly the
branch's recursive key prefixed with the branch's `Name` through
`concatSeparatedString` - so it starts with `"<branchName>+"` whenever both
the name and the branch key are non-empty (it is the bare key when the name
is empty, and the bare name when the branch key is empty) - later branches
are never evaluated and neither the `Use` rule nor the `Look` rule runs. -/
theorem c3_when_priority (p : IdentificationParameter) (orig obj : Obj)
    (cond : ConditionalIDParameter)
    (hfind : p.When.find? (fun c => isVerifiedBy c obj) = some cond)
    (hincr : p.Incr = false) :
    BuildUniqueKey p orig obj
      = (match doBuildUniqueKey cond.toIdParam orig obj with
         | .error e => .error e
         | .ok (sub, orig1, obj1) =>
             .ok (concatSeparatedString cond.toIdParam.Name sepPLUS sub,
                  orig1, obj1))
    ∧ (∀ sub orig1 obj1,
        doBuildUniqueKey cond.toIdParam orig obj = .ok (sub, orig1, obj1) →
        cond.toIdParam.Name ≠ "" → sub ≠ "" →
        BuildUniqueKey p orig obj
          = .ok (cond.toIdParam.Name ++ sepPLUS ++ sub, orig1, obj1)) := by
  have hw := tryWhen_of_find?_some p.When orig obj cond hfind
  constructor
  · unfold BuildUniqueKey
    rcases hb : doBuildUniqueKey cond.toIdParam orig obj with e | x
    · rw [hb] at hw
      dsimp only at hw
      rw [build_of_tryWhen_err hw]
    · obtain ⟨sub, o1, b1⟩ := x
      rw [hb] at hw
      dsimp only at hw
      rw [build_of_tryWhen_ok hw, finishKey_noincr _ _ _ _ hincr]
  · intro sub orig1 obj1 hb hname hsub
    unfold BuildUniqueKey
    rw [hb] at hw
    dsimp only at hw
    rw [build_of_tryWhen_ok hw, finishKey_noincr _ _ _ _ hincr,
        concat_nonempty _ _ _ hname hsub]

/-- Witness for `c3_when_priority`: a verified first branch named `"N"`
whose branch key is `"V"` produces `"N+V"`. -/
theorem c3_when_priority_witness :
    BuildUniqueKey
      (.mk "r" [] false
        [.mk "q" "<nil>" (.mk "x" ["p"] false [] [] [] "N" true)] [] [] "" false)
      [] [("p", .str "V")]
      = .ok ("N" ++ sepPLUS ++ "V", [], [("p", .str "V")]) := by
  have hfind : List.find? (fun c => isVerifiedBy c [("p", Value.str "V")])
      [ConditionalIDParameter.mk "q" "<nil>" (.mk "x" ["p"] false [] [] [] "N" true)]
      = some (.mk "q" "<nil>" (.mk "x" ["p"] false [] [] [] "N" true)) := by
    simp [List.find?, isVerifiedBy, goSprintV, lookupObj]
  have hb : doBuildUniqueKey (.mk "x" ["p"] false [] [] [] "N" true) [] [("p", .str "V")]
      = .ok ("V", [], [("p", .str "V")]) := by
    simp [doBuildUniqueKey, tryWhen, doLook, buildUseKey, getStringValueFromObj,
      stringOfLookedUp, lookupObj, finishKey, concatSeparatedString, sepPLUS]
  exact (c3_when_priority
    (.mk "r" [] false
      [.mk "q" "<nil>" (.mk "x" ["p"] false [] [] [] "N" true)] [] [] "" false)
    [] [("p", .str "V")]
    (.mk "q" "<nil>" (.mk "x" ["p"] false [] [] [] "N" true))
    hfind rfl).2 "V" [] [("p", .str "V")] hb (by decide) (by decide)

theorem roundHalfToEven_intCast (n : ℤ) : roundHalfToEven (n : ℚ) = n := by
  unfold roundHalfToEven
  norm_num

/-- C8 (counterexample): the source's integer test goes through Go's 64-bit
`int`, so a float64 integer of magnitude at least `2^63` - here
`float64(1e30)`, the exact integer `1000000000000000019884624838656` - fails
`floatValue == float64(int(floatValue))` and is printed through
`FormatFloat('f', 6)` with six decimals, not as the plain integer string the
claim demands for every zero-fractional-part value. -/
theorem c8_counterexample :
    getStringValueFromObj [("p", Value.num 1000000000000000019884624838656)] "p"
      = .ok "1000000000000000019884624838656.000000"
    ∧ ("1000000000000000019884624838656.000000" : String)
        ≠ "1000000000000000019884624838656" := by
  constructor
  · unfold getStringValueFromObj
    rw [show lookupObj [("p", Value.num 1000000000000000019884624838656)] "p"
          = some (Value.num 1000000000000000019884624838656) from rfl]
    unfold stringOfLookedUp
    rw [if_neg (by decide)]
    have habs : |(1000000000000000019884624838656 : ℚ)|
        = 1000000000000000019884624838656 := abs_of_nonneg (by norm_num)
    have hmul : (1000000000000000019884624838656 : ℚ) * 1000000
        = ((1000000000000000019884624838656000000 : ℤ) : ℚ) := by norm_num
    have hneg : ¬((1000000000000000019884624838656 : ℚ) < 0) := by norm_num
    unfold formatFloat6
    rw [habs, hmul, roundHalfToEven_intCast, if_neg hneg]
    rfl
  · decide

/-- C8 (amended): `getStringValueFromObj` returns the plain integer decimal
string when the (exact) value is an integer in the int64 range (reduced
denominator 1 with `-2^63 ≤ num < 2^63`, which is when the source's
`floatValue == float64(int(floatValue))` test holds), and otherwise - a
fractional value, or an integer outside the int64 range - the fixed
6-decimal representation; in particular `3.0 → "3"`, `3.5 → "3.500000"` and
`-2.0 → "-2"`. -/
theorem c8_numeric_canonicalization :
    (∀ (obj : Obj) (prop : String) (q : ℚ),
        lookupObj obj prop = some (.num q) →
        getStringValueFromObj obj prop
          = .ok (if q.den = 1 ∧ -(2 ^ 63) ≤ q.num ∧ q.num < 2 ^ 63
                 then toString q.num else formatFloat6 q))
    ∧ getStringValueFromObj [("p", .num 3)] "p" = .ok "3"
    ∧ getStringValueFromObj [("p", .num (7 / 2))] "p" = .ok "3.500000"
    ∧ getStringValueFromObj [("p", .num (-2))] "p" = .ok "-2" := by
  have hgen : ∀ (obj : Obj) (prop : String) (q : ℚ),
      lookupObj obj prop = some (.num q) →
      getStringValueFromObj obj prop
        = .ok (if q.den = 1 ∧ -(2 ^ 63) ≤ q.num ∧ q.num < 2 ^ 63
               then toString q.num else formatFloat6 q) := by
    intro obj prop q h
    unfold getStringValueFromObj
    rw [h]
    unfold stringOfLookedUp
    by_cases hd : q.den = 1 ∧ -(2 ^ 63) ≤ q.num ∧ q.num < 2 ^ 63
    · rw [if_pos hd, if_pos hd]
    · rw [if_neg hd, if_neg hd]
  refine ⟨hgen, ?_, ?_, ?_⟩
  · rw [hgen [("p", .num 3)] "p" 3 rfl]
    rfl
  · rw [hgen [("p", .num (7 / 2))] "p" (7 / 2) rfl]
    have hden : (7 / 2 : ℚ).den = 2 := by norm_num [Rat.den]
    rw [if_neg (by simp [hden])]
    have habs : |(7 / 2 : ℚ)| = 7 / 2 := abs_of_nonneg (by norm_num)
    have hmul : (7 / 2 : ℚ) * 1000000 = ((3500000 : ℤ) : ℚ) := by norm_num
    have hneg : ¬((7 / 2 : ℚ) < 0) := by norm_num
    unfold formatFloat6
    rw [habs, hmul, roundHalfToEven_intCast, if_neg hneg]
    rfl
  · rw [hgen [("p", .num (-2))] "p" (-2) rfl]
    rfl

/-- Witness for `c8_numeric_canonicalization` at the integer value `3`. -/
theorem c8_numeric_canonicalization_witness :
    getStringValueFromObj [("p", Value.num 3)] "p"
      = .ok (if (3 : ℚ).den = 1 ∧ -(2 ^ 63) ≤ (3 : ℚ).num ∧ (3 : ℚ).num < 2 ^ 63
             then toString (3 : ℚ).num else formatFloat6 3) :=
  c8_numeric_canonicalization.1 [("p", Value.num 3)] "p" 3 rfl

/-- C5: under `Incr`, each computed base key is suffixed with the
per-container occurrence count: `incrKey` bumps the counter stored in the
container's `_increments_` map for the raw key and returns `"<key>#<count>"`
(initializing the map when absent); in particular three siblings with the
identical base key `"X"`, processed in document order against the same
container, yield `"X#1"`, `"X#2"`, `"X#3"` respectively, and the container
ends up with counter map `{"X" ↦ 3}`. -/
theorem c5_increment_uniqueness :
    (∀ (store : Obj) (key : String) (m : List (String × Int)),
        lookupObj store objINCREMENTS = some (.counters m) →
        incrKey store key
          = .ok (key ++ "#" ++ toString (lookupCount m key + 1),
                 setEntry store objINCREMENTS
                   (.counters (setCount m key (lookupCount m key + 1)))))
    ∧ (∀ (store : Obj) (key : String),
        lookupObj store objINCREMENTS = none →
        incrKey store key
          = .ok (key ++ "#" ++ toString (1 : ℤ),
                 setEntry (setEntry store objINCREMENTS (.counters []))
                   objINCREMENTS (.counters [(key, 1)])))
    ∧ doLookArray (.mk "items" ["p"] true [] [] [] "" false)
        [[("p", .str "X")], [("p", .str "X")], [("p", .str "X")]]
        [("items", .arr [[("p", .str "X")], [("p", .str "X")], [("p", .str "X")]])]
        = .ok (["X#1", "X#2", "X#3"],
            [("items", .arr [[("p", .str "X")], [("p", .str "X")], [("p", .str "X")]]),
             (objINCREMENTS, .counters [("X", 3)])],
            [[("p", .str "X")], [("p", .str "X")], [("p", .str "X")]])
    ∧ BuildUniqueKey
        (.mk "r" [] false [] [.mk "items" ["p"] true [] [] [] "" false] [] "" false)
        [] [("items", .arr [[("p", .str "X")], [("p", .str "X")], [("p", .str "X")]])]
        = .ok ("X#1|X#2|X#3", [],
            [("items", .arr [[("p", .str "X")], [("p", .str "X")], [("p", .str "X")]]),
             (objINCREMENTS, .counters [("X", 3)])])
    ∧ lookupObj
        [("items", Value.arr [[("p", .str "X")], [("p", .str "X")], [("p", .str "X")]]),
         (objINCREMENTS, Value.counters [("X", 3)])] objINCREMENTS
        = some (.counters [("X", 3)]) := by
  refine ⟨?_, ?_, ?_, ?_, by rfl⟩
  · intro store key m h
    have hinit : incrInit store = store := by
      unfold incrInit
      rw [h]
    unfold incrKey
    rw [hinit, h]
  · intro store key h
    have hinit : incrInit store = setEntry store objINCREMENTS (.counters []) := by
      unfold incrInit
      rw [h]
    unfold incrKey
    rw [hinit, lookup_setEntry_self]
    rfl
  · simp [doLookArray, doBuildUniqueKey, tryWhen, doLook, buildUseKey,
      getStringValueFromObj, stringOfLookedUp, lookupObj, finishKey, incrKey,
      incrInit, setEntry, lookupCount, setCount, objINCREMENTS,
      concatSeparatedString, sepPLUS]
    exact ⟨rfl, rfl, rfl⟩
  · simp [BuildUniqueKey, doBuildUniqueKey, tryWhen, doLook, doLookArray,
      buildUseKey, getStringValueFromObj, stringOfLookedUp, lookupObj,
      finishKey, incrKey, incrInit, setEntry, lookupCount, setCount,
      objINCREMENTS, concatSeparatedString, sepPLUS, sepPIPE, currentPATH,
      String.intercalate]
    rfl

/-- Witness for `c5_increment_uniqueness`: bumping `"X"` on a container
whose counter map holds `{"X" ↦ 2}` yields `"X#3"`. -/
theorem c5_increment_uniqueness_witness :
    incrKey [(objINCREMENTS, Value.counters [("X", 2)])] "X"
      = .ok ("X" ++ "#" ++ toString (lookupCount [("X", 2)] "X" + 1),
             setEntry [(objINCREMENTS, Value.counters [("X", 2)])] objINCREMENTS
               (.counters (setCount [("X", 2)] "X" (lookupCount [("X", 2)] "X" + 1)))) :=
  c5_increment_uniqueness.1 [(objINCREMENTS, Value.counters [("X", 2)])] "X"
    [("X", 2)] rfl

/-- C4: when a `Look` child's path selects an array of mappings, the key
builder recurses once per element with `(current, element)` in document
(positional) order, collects each element's key - omitting empty keys
unless the child is non-conditional, in which case they are included
(`arrayKeysSpec`) - joins the collected fragments with `"|"` in that same
positional order (not sorted), and appends the joined fragment to the
accumulated result via `"+"`; under a node whose only rule is that child,
`BuildUniqueKey` returns exactly the joined fragment.  (Stated for a child
without `Incr`, where the per-element recursions are independent of the
threaded counter state.) -/
theorem c4_array_aggregation (child : IdentificationParameter)
    (orig obj : Obj) (acc : String) (rest : List IdentificationParameter)
    (items : List Obj) (keys : List String)
    (hAt : child.At ≠ currentPATH)
    (hlook : lookupObj obj child.At = some (.arr items))
    (hnoincr : noIncrParam child = true)
    (hkeys : arrayKeysSpec child obj items = .ok keys) :
    doLook (child :: rest) orig obj acc
      = doLook rest orig obj
          (concatSeparatedString acc sepPLUS (String.intercalate sepPIPE keys))
    ∧ (∀ (at0 name : String) (fors : List (String × IdentificationParameter)),
        BuildUniqueKey (.mk at0 [] false [] [child] fors name true) orig obj
          = .ok (String.intercalate sepPIPE keys, orig, obj)) := by
  have harr := doLookArray_spec child items obj hnoincr
  rw [hkeys] at harr
  dsimp only at harr
  have hmain : ∀ (acc2 : String) (rest2 : List IdentificationParameter),
      doLook (child :: rest2) orig obj acc2
        = doLook rest2 orig obj
            (concatSeparatedString acc2 sepPLUS (String.intercalate sepPIPE keys)) := by
    intro acc2 rest2
    conv_lhs => unfold doLook
    rw [if_neg hAt, hlook]
    dsimp only
    rw [harr]
    dsimp only
    rw [setEntry_lookup_id hlook]
  refine ⟨hmain acc rest, ?_⟩
  intro at0 name fors
  have ht : tryWhen [] orig obj = none := by
    unfold tryWhen
    rfl
  unfold BuildUniqueKey
  conv_lhs => unfold doBuildUniqueKey
  simp only [When_mk, Use_mk, Look_mk, Incr_mk, conditional_mk, ht]
  rw [hmain "" []]
  unfold doLook
  rw [concat_left_empty]
  simp [finishKey]

/-- Witness for `c4_array_aggregation`: schema
`{look: [{at: "items", _use: ["id"]}]}` over `{items: [{id: "b"}, {id: "a"}]}`
yields the positional join `"b|a"` (not the sorted `"a|b"`). -/
theorem c4_array_aggregation_witness :
    BuildUniqueKey
      (.mk "r" [] false [] [.mk "items" ["id"] false [] [] [] "" false] [] "" true)
      [] [("items", .arr [[("id", .str "b")], [("id", .str "a")]])]
      = .ok ("b|a", [], [("items", .arr [[("id", .str "b")], [("id", .str "a")]])]) := by
  have hkeys : arrayKeysSpec (.mk "items" ["id"] false [] [] [] "" false)
      [("items", Value.arr [[("id", .str "b")], [("id", .str "a")]])]
      [[("id", .str "b")], [("id", .str "a")]] = .ok ["b", "a"] := by
    simp [arrayKeysSpec, doBuildUniqueKey, tryWhen, doLook, buildUseKey,
      getStringValueFromObj, stringOfLookedUp, lookupObj, finishKey,
      concatSeparatedString, sepPLUS]
  have h := (c4_array_aggregation (.mk "items" ["id"] false [] [] [] "" false)
      [] [("items", .arr [[("id", .str "b")], [("id", .str "a")]])] "" []
      [[("id", .str "b")], [("id", .str "a")]] ["b", "a"]
      (by decide) rfl (by simp [noIncrParam, noIncrWhens, noIncrLooks]) hkeys).2
      "r" "" []
  have hj : String.intercalate sepPIPE ["b", "a"] = "b|a" := rfl
  rw [hj] at h
  exact h
